import Mathlib

/-!
Verification of `lib/preprocess_era5inp.py` (class `era5_acc_fields`),
the ERA5 input preprocessing module of easy-era5-trck.

Shallow embedding conventions:
* A point in time is an integer number of hours since an arbitrary epoch
  (`datetime` arithmetic in the source only ever adds whole hours or whole
  days, so hour granularity is exact).
* The calendar date of a time `t` is `t / 24` rounded toward negative
  infinity (`Int.ediv`, which `/` denotes for `Int`); two times have equal
  `strftime` date strings exactly when they have equal calendar dates.
* The filesystem is a predicate `fs : String → Bool` (`os.path.exists`).
* `utils.throw_error` terminates the process, embedded as `Except.error`
  carrying the message built by the source.
* The `while` loop of `__init__` is embedded fuel-indexed; `none` means the
  fuel was exhausted (the loop did not terminate within `fuel` iterations).

Definitions come first, then the lemmas and claim theorems.
-/

/-- The configuration fields read by `era5_acc_fields.__init__`, with the
source's key names.  `start_ymdh` is the parsed start time in hours. -/
structure Config where
  start_ymdh : Int
  forward_option : Int
  integration_length : Int
  input_era5_case : String
  time_step : Int
  boundary_check : Bool

/-- Source line 14: module-level log/error message prefix. -/
def print_prefix : String := "lib.preprocess_era5inp>>"

/-- Source line 73: `self.strt_t`, the parsed start time. -/
def strt_t (cfg : Config) : Int := cfg.start_ymdh

/-- Source line 76: `self.final_t = strt_t + timedelta(hours=forward*integration_length)`. -/
def final_t (cfg : Config) : Int :=
  strt_t cfg + cfg.forward_option * cfg.integration_length

/-- Calendar date (day index) of a time in hours: floor division by 24,
the date that `strftime('%Y%m%d')` formats. -/
def dateOf (t : Int) : Int := t / 24

/-- Source lines 80 and 95: `input_dir + '/' + t.strftime('%Y%m%d') + '-pl.grib'`,
with the calendar date rendered by its day index. -/
def fileOfDay (dir : String) (d : Int) : String :=
  dir ++ "/" ++ toString d ++ "-pl.grib"

/-- Source lines 86 and 99: the fatal message for a missing input file. -/
def errMissing (fn : String) : String :=
  print_prefix ++ "cannot locate:" ++ fn ++ ", please check files or settings!"

/-- Source lines 91–101: the file-discovery `while` loop.  `fn_dt` is the
cursor step in hours (`timedelta(days=1*forward)`, i.e. `24*forward`).
The accumulator holds the calendar days whose files have been appended to
`self.nc_pres_files`.  Fuel-indexed; `none` = loop still running after
`fuel` iterations. -/
def discover (fs : String → Bool) (dir : String) (fn_dt final_time : Int) :
    Nat → Int → List Int → Option (Except String (List Int))
  | 0, curr_t, acc =>
    if dateOf curr_t = dateOf final_time then some (Except.ok acc) else none
  | fuel + 1, curr_t, acc =>
    if dateOf curr_t = dateOf final_time then some (Except.ok acc)
    else if fs (fileOfDay dir (dateOf (curr_t + fn_dt))) then
      discover fs dir fn_dt final_time fuel (curr_t + fn_dt)
        (acc ++ [dateOf (curr_t + fn_dt)])
    else some (Except.error (errMissing (fileOfDay dir (dateOf (curr_t + fn_dt)))))

/-- Source lines 80–101: the full discovery of `self.nc_pres_files`, as the
list of calendar days: the start day's file is checked and appended first
(lines 80–86), then the loop runs (lines 91–101). -/
def nc_pres_days (fs : String → Bool) (cfg : Config) (fuel : Nat) :
    Option (Except String (List Int)) :=
  let d0 := dateOf (strt_t cfg)
  if fs (fileOfDay cfg.input_era5_case d0) then
    discover fs cfg.input_era5_case (24 * cfg.forward_option) (final_t cfg)
      fuel (strt_t cfg) [d0]
  else some (Except.error (errMissing (fileOfDay cfg.input_era5_case d0)))

/-- The discovered file-path list `self.nc_pres_files` itself. -/
def nc_pres_files (fs : String → Bool) (cfg : Config) (fuel : Nat) :
    Option (Except String (List String)) :=
  (nc_pres_days fs cfg fuel).map
    (fun r => r.map (fun days => days.map (fileOfDay cfg.input_era5_case)))

/-- A filesystem on which every path exists. -/
def allFiles : String → Bool := fun _ => true

/-- The number of calendar days separating the start date from the final
date (absolute value). -/
def dayGap (cfg : Config) : Nat :=
  (dateOf (final_t cfg) - dateOf (strt_t cfg)).natAbs

/-- A forward test configuration: start at hour 6 of day 0, one calendar
day of integration. -/
def cfgFwdW : Config :=
  { start_ymdh := 6, forward_option := 1, integration_length := 30,
    input_era5_case := "era5", time_step := 60, boundary_check := false }

/-- A backward test configuration: start at hour 0 of day 2, 24 hours of
backward integration (final time is hour 0 of day 1). -/
def cfgBwdEx : Config :=
  { start_ymdh := 48, forward_option := -1, integration_length := 24,
    input_era5_case := "era5", time_step := 30, boundary_check := false }

/-- Modelled from the spec's words (§8, first testable property): the
claimed discovered-file count `ceil(integration_length_hours / 24) + 1`.
Spec-side definition, to be compared with the source's behaviour. -/
def spec_file_count (length_hours : Int) : Int :=
  ⌈(length_hours : ℚ) / 24⌉ + 1

/-- A forward configuration starting at hour 0 of day 0 with a 25-hour
integration length. -/
def cfgFwd25 : Config :=
  { start_ymdh := 0, forward_option := 1, integration_length := 25,
    input_era5_case := "era5", time_step := 30, boundary_check := false }

/-- A configuration with the invalid direction value `2`: the discovery
cursor then steps two calendar days per iteration and can skip over the
final date. -/
def cfgDir2 : Config :=
  { start_ymdh := 0, forward_option := 2, integration_length := 12,
    input_era5_case := "era5", time_step := 30, boundary_check := false }

/-- Source lines 103–112: `ds_grib = ds_grib[::-1]` when
`self.forward == -1`; otherwise the loaded order is kept.  The result is
the order in which the per-file structures are concatenated (line 114). -/
def ds_grib_order (cfg : Config) (days : List Int) : List Int :=
  if cfg.forward_option = -1 then days.reverse else days

/-- Source line 114: `xr.concat(ds_grib, 'time')` — the combined time
coordinate is the concatenation, in list order, of the per-file time
coordinates; `load d` is the time coordinate of day `d`'s file. -/
def comb_times (load : Int → List Int) (order : List Int) : List Int :=
  (order.map load).flatten

/-- A forward run over the calendar span `[s, s + L]`. -/
def cfgFwdOf (s L : Int) (dir : String) (ts : Int) : Config :=
  { start_ymdh := s, forward_option := 1, integration_length := L,
    input_era5_case := dir, time_step := ts, boundary_check := false }

/-- The backward run over the same calendar span `[s, s + L]`: it starts at
`s + L` and integrates `L` hours backward. -/
def cfgBwdOf (s L : Int) (dir : String) (ts : Int) : Config :=
  { start_ymdh := s + L, forward_option := -1, integration_length := L,
    input_era5_case := dir, time_step := ts, boundary_check := false }

/-- Per-day time coordinates with the usual 6-hourly cadence. -/
def sixHourly (d : Int) : List Int := [24 * d, 24 * d + 6, 24 * d + 12, 24 * d + 18]

/-- A gridded value: a number, or a missing value (NaN). -/
inductive GVal where
  | nan : GVal
  | val : Int → GVal
deriving DecidableEq

def GVal.isNan : GVal → Bool
  | .nan => true
  | .val _ => false

/-- Source lines 103–112: the slice bounds `slice_start, slice_end`.
`[final_t, strt_t]` for backward runs, `[strt_t, final_t]` for forward
runs.  For a direction outside `{+1, -1}` neither branch assigns them and
their first use (line 137) raises a Python `NameError`: that case is
`none`. -/
def slice_bounds (cfg : Config) : Option (Int × Int) :=
  if cfg.forward_option = -1 then some (final_t cfg, strt_t cfg)
  else if cfg.forward_option = 1 then some (strt_t cfg, final_t cfg)
  else none

/-- Label slicing `.loc[slice_start:slice_end]` on a monotone time axis:
keeps every frame whose time lies in the inclusive range. -/
def sliceTimes (lo hi : Int) (times : List Int) : List Int :=
  times.filter (fun t => decide (lo ≤ t) && decide (t ≤ hi))

/-- One wind component as time-indexed frames: each entry pairs a time
coordinate with the flattened (level, lat, lon) values at that time. -/
def sliceVar (lo hi : Int) (xs : List (Int × List GVal)) : List (Int × List GVal) :=
  xs.filter (fun p => decide (lo ≤ p.1) && decide (p.1 ≤ hi))

/-- The three wind components of the combined dataset, time-indexed. -/
structure WindInput where
  U : List (Int × List GVal)
  V : List (Int × List GVal)
  W : List (Int × List GVal)
deriving DecidableEq

/-- `np.any(np.isnan(...))` over the frames of one component. -/
def hasNan (xs : List (Int × List GVal)) : Bool :=
  xs.any (fun p => p.2.any GVal.isNan)

/-- Source line 141: the fatal message for a missing value. -/
def errNan : String :=
  print_prefix ++
    "found NAN in combined data set, please check the download domains for all variables are identical."

/-- Source lines 103–141: slice `U`, `V`, `W` to the window (lines
137–139) and run the NaN check (lines 140–141); `Except.error` is
`utils.throw_error`.  A direction outside `{±1}` reaches line 137 with
`slice_start` unbound, a Python `NameError`. -/
def slice_and_check (cfg : Config) (w : WindInput) : Except String WindInput :=
  match slice_bounds cfg with
  | none => Except.error "NameError: name slice_start is not defined"
  | some (lo, hi) =>
    if hasNan (sliceVar lo hi w.U) || hasNan (sliceVar lo hi w.V)
        || hasNan (sliceVar lo hi w.W) then
      Except.error errNan
    else Except.ok ⟨sliceVar lo hi w.U, sliceVar lo hi w.V, sliceVar lo hi w.W⟩

/-- Wind input with a single NaN in `W` at time 6. -/
def exWbad : WindInput :=
  { U := [(6, [GVal.val 1])], V := [(6, [GVal.val 2])], W := [(6, [GVal.nan])] }

/-- The same extent with no missing value. -/
def exWgood : WindInput :=
  { U := [(6, [GVal.val 1])], V := [(6, [GVal.val 2])], W := [(6, [GVal.val 3])] }

/-- Source line 134: `self.drv_fld_dt` — the delta between the first two
time coordinates of the combined series, converted to seconds (times are in
hours, hence the factor 3600).  With fewer than two frames the index `[1]`
raises, hence `none`. -/
def drv_fld_dt : List Int → Option Int
  | t0 :: t1 :: _ => some ((t1 - t0) * 3600)
  | _ => none

/-- Source line 136: `self.step_per_inpf = drv_fld_dt / (time_step * 60)`,
Python true division — an exact rational, with no integrality check. -/
def step_per_inpf (cfg : Config) (times : List Int) : Option ℚ :=
  (drv_fld_dt times).map (fun d => (d : ℚ) / ((cfg.time_step : ℚ) * 60))

/-- A configuration with a 50-minute step (a non-divisor of the 6-hour
cadence). -/
def cfgStep50 : Config :=
  { start_ymdh := 0, forward_option := 1, integration_length := 6,
    input_era5_case := "era5", time_step := 50, boundary_check := false }

/-- A configuration with a 30-minute step. -/
def cfgStep30 : Config :=
  { start_ymdh := 0, forward_option := 1, integration_length := 24,
    input_era5_case := "era5", time_step := 30, boundary_check := false }

/-- Ordering of longitude-axis entries by their (adjusted) coordinate,
used by the re-sort `.sel(sorted(longitude_adjusted))`. -/
def lonKeyLe {α : Type} (a b : Int × α) : Prop := a.1 ≤ b.1

instance {α : Type} : DecidableRel (@lonKeyLe α) := fun a b =>
  inferInstanceAs (Decidable (a.1 ≤ b.1))

instance {α : Type} : IsTotal (Int × α) lonKeyLe :=
  ⟨fun a b => Int.le_total a.1 b.1⟩

instance {α : Type} : IsTrans (Int × α) lonKeyLe :=
  ⟨fun _ _ _ hab hbc => le_trans hab hbc⟩

/-- Source lines 117–131: longitude normalization.  The longitude axis is
a list of (coordinate, data-slab) pairs.  If any coordinate is negative
(`np.nanmin(xlon) < 0.0`), each coordinate `L < 0` becomes `L + 360` and
non-negative ones are kept (`xr.where(lon < 0, lon + 360, lon)`), and the
data are re-sorted by ascending adjusted coordinate
(`.sel(longitude_adjusted = sorted(...))`); otherwise the dataset is left
untouched. -/
def adjust_lon {α : Type} (ds : List (Int × α)) : List (Int × α) :=
  if ds.any (fun p => decide (p.1 < 0)) then
    List.insertionSort lonKeyLe
      (ds.map (fun p => if p.1 < 0 then (p.1 + 360, p.2) else p))
  else ds

/-- A mixed-sign longitude axis with integer data slabs. -/
def dsEx : List (Int × Int) := [(-170, 10), (160, 20)]

/-- Source line 152's intended companion file name `<YYYYMMDD>-sl.grib`. -/
def surfFileOfDay (dir : String) (d : Int) : String :=
  dir ++ "/" ++ toString d ++ "-sl.grib"

/-- Source lines 149–153: the boundary-check branch.  Line 152 reads
`fn_timestamp.strftime('%Y%m%d')`, but no name `fn_timestamp` is ever
bound anywhere in the module, so Python raises
`NameError: name fn_timestamp is not defined` whenever `boundary_check`
is true — before any `-sl.grib` path is resolved or opened. -/
def boundary_step (cfg : Config) : Except String (List String) :=
  if cfg.boundary_check then
    Except.error "NameError: name fn_timestamp is not defined"
  else Except.ok []

/-- A configuration with the boundary-check flag set. -/
def cfgBC : Config :=
  { start_ymdh := 0, forward_option := 1, integration_length := 24,
    input_era5_case := "era5", time_step := 30, boundary_check := true }

lemma dateOf_add_mul (t k : Int) : dateOf (t + 24 * k) = dateOf t + k := by
  unfold dateOf
  rw [mul_comm 24 k]
  exact Int.add_mul_ediv_right t k (by norm_num)

lemma dateOf_mono {a b : Int} (h : a ≤ b) : dateOf a ≤ dateOf b :=
  Int.ediv_le_ediv (by norm_num) h

/-- For a valid direction and a nonnegative integration length, the final
date sits exactly `forward_option * dayGap` days after the start date. -/
lemma dateOf_final (cfg : Config)
    (hf : cfg.forward_option = 1 ∨ cfg.forward_option = -1)
    (hL : 0 ≤ cfg.integration_length) :
    dateOf (final_t cfg) = dateOf (strt_t cfg) + cfg.forward_option * (dayGap cfg : Int) := by
  rcases hf with hf | hf
  · have hle : dateOf (strt_t cfg) ≤ dateOf (final_t cfg) := by
      apply dateOf_mono
      unfold final_t
      rw [hf]
      omega
    have : ((dayGap cfg : Int)) = dateOf (final_t cfg) - dateOf (strt_t cfg) := by
      unfold dayGap
      rw [Int.natAbs_of_nonneg (by omega)]
    rw [hf]
    omega
  · have hle : dateOf (final_t cfg) ≤ dateOf (strt_t cfg) := by
      apply dateOf_mono
      unfold final_t
      rw [hf]
      omega
    have : ((dayGap cfg : Int)) = dateOf (strt_t cfg) - dateOf (final_t cfg) := by
      unfold dayGap
      rw [← Int.natAbs_neg, Int.natAbs_of_nonneg (by omega)]
      ring
    rw [hf]
    omega

lemma range_map_shift (a f : Int) (n : Nat) :
    (a + f) :: (List.range n).map (fun i : Nat => (a + f) + f * ((i : Int) + 1))
      = (List.range (n + 1)).map (fun i : Nat => a + f * ((i : Int) + 1)) := by
  rw [List.range_succ_eq_map, List.map_cons, List.map_map]
  congr 1
  · push_cast
    ring
  · apply List.map_congr_left
    intro i _
    simp only [Function.comp_apply]
    push_cast
    ring

/-- Closed form of the discovery loop on the success path: when the final
date lies `n` steps of `forward` days away from the cursor's date and every
file on the walk exists, the loop appends exactly the walked days. -/
lemma discover_ok (fs : String → Bool) (dir : String) (f : Int)
    (hf : f = 1 ∨ f = -1) (n : Nat) :
    ∀ (curr final : Int) (acc : List Int) (fuel : Nat),
      dateOf final = dateOf curr + f * n →
      n ≤ fuel →
      (∀ i : Nat, i < n → fs (fileOfDay dir (dateOf curr + f * ((i : Int) + 1))) = true) →
      discover fs dir (24 * f) final fuel curr acc
        = some (Except.ok
            (acc ++ (List.range n).map (fun i : Nat => dateOf curr + f * ((i : Int) + 1)))) := by
  induction n with
  | zero =>
    intro curr final acc fuel hn _ _
    have hcond : dateOf curr = dateOf final := by push_cast at hn; omega
    cases fuel <;> simp [discover, hcond]
  | succ n ih =>
    intro curr final acc fuel hn hfuel hex
    push_cast at hn
    have hne : ¬ (dateOf curr = dateOf final) := by
      rcases hf with hf | hf <;> (subst hf; omega)
    obtain ⟨fuel', rfl⟩ : ∃ m, fuel = m + 1 := ⟨fuel - 1, by omega⟩
    have hd : dateOf (curr + 24 * f) = dateOf curr + f := dateOf_add_mul curr f
    have hex0 : fs (fileOfDay dir (dateOf (curr + 24 * f))) = true := by
      rw [hd]
      have h0 := hex 0 (by omega)
      push_cast at h0
      simpa using h0
    simp only [discover]
    rw [if_neg hne, if_pos hex0]
    have hn' : dateOf final = dateOf (curr + 24 * f) + f * n := by
      rw [hd]
      rcases hf with hf | hf <;> (subst hf; omega)
    have hex' : ∀ i : Nat, i < n →
        fs (fileOfDay dir (dateOf (curr + 24 * f) + f * ((i : Int) + 1))) = true := by
      intro i hi
      have h1 := hex (i + 1) (by omega)
      have harg : dateOf (curr + 24 * f) + f * ((i : Int) + 1)
          = dateOf curr + f * (((i : Nat) + 1 : Nat) + 1 : Int) := by
        rw [hd]
        push_cast
        ring
      rw [harg]
      exact h1
    rw [ih (curr + 24 * f) final (acc ++ [dateOf (curr + 24 * f)]) fuel' hn'
      (by omega) hex']
    simp only [hd, List.append_assoc, List.singleton_append]
    rw [range_map_shift]

lemma range_map_cons (a f : Int) (n : Nat) :
    a :: (List.range n).map (fun i : Nat => a + f * ((i : Int) + 1))
      = (List.range (n + 1)).map (fun i : Nat => a + f * (i : Int)) := by
  rw [List.range_succ_eq_map, List.map_cons, List.map_map]
  congr 1
  simp

/-- Closed form of the whole discovery (`self.nc_pres_files`, as calendar
days) on the success path: the day walk from the start date to the final
date in steps of `forward_option` days. -/
lemma nc_pres_days_ok (fs : String → Bool) (cfg : Config) (fuel : Nat)
    (hf : cfg.forward_option = 1 ∨ cfg.forward_option = -1)
    (hL : 0 ≤ cfg.integration_length)
    (hfuel : dayGap cfg ≤ fuel)
    (hex : ∀ i : Nat, i ≤ dayGap cfg →
      fs (fileOfDay cfg.input_era5_case
        (dateOf (strt_t cfg) + cfg.forward_option * (i : Int))) = true) :
    nc_pres_days fs cfg fuel = some (Except.ok
      ((List.range (dayGap cfg + 1)).map
        (fun i : Nat => dateOf (strt_t cfg) + cfg.forward_option * (i : Int)))) := by
  have h0 : fs (fileOfDay cfg.input_era5_case (dateOf (strt_t cfg))) = true := by
    have h := hex 0 (by omega)
    simpa using h
  have hex' : ∀ i : Nat, i < dayGap cfg →
      fs (fileOfDay cfg.input_era5_case
        (dateOf (strt_t cfg) + cfg.forward_option * ((i : Int) + 1))) = true := by
    intro i hi
    have h := hex (i + 1) (by omega)
    push_cast at h
    exact h
  simp only [nc_pres_days]
  rw [if_pos h0]
  rw [discover_ok fs cfg.input_era5_case cfg.forward_option hf (dayGap cfg)
    (strt_t cfg) (final_t cfg) [dateOf (strt_t cfg)] fuel
    (dateOf_final cfg hf hL) hfuel hex']
  rw [List.singleton_append, range_map_cons]

/-- The discovery loop on the failure path: the first missing file on the
walk aborts the loop with a fatal message naming that file's path. -/
lemma discover_err (fs : String → Bool) (dir : String) (f : Int)
    (hf : f = 1 ∨ f = -1) (k : Nat) :
    ∀ (n : Nat) (curr final : Int) (acc : List Int) (fuel : Nat),
      dateOf final = dateOf curr + f * n →
      n ≤ fuel → k < n →
      (∀ i : Nat, i < k → fs (fileOfDay dir (dateOf curr + f * ((i : Int) + 1))) = true) →
      fs (fileOfDay dir (dateOf curr + f * ((k : Int) + 1))) = false →
      discover fs dir (24 * f) final fuel curr acc
        = some (Except.error
            (errMissing (fileOfDay dir (dateOf curr + f * ((k : Int) + 1))))) := by
  induction k with
  | zero =>
    intro n curr final acc fuel hn hfuel hk hex hmiss
    have hn1 : (1 : Int) ≤ n := by exact_mod_cast hk
    have hne : ¬ (dateOf curr = dateOf final) := by
      rcases hf with hf | hf <;> (subst hf; omega)
    obtain ⟨fuel', rfl⟩ : ∃ m, fuel = m + 1 := ⟨fuel - 1, by omega⟩
    have hd : dateOf (curr + 24 * f) = dateOf curr + f := dateOf_add_mul curr f
    have hm : fs (fileOfDay dir (dateOf (curr + 24 * f))) = false := by
      rw [hd]
      have : dateOf curr + f = dateOf curr + f * ((0 : Int) + 1) := by ring
      rw [this]
      simpa using hmiss
    simp only [discover]
    rw [if_neg hne, if_neg (by simp [hm]), hd]
    norm_num
  | succ k ih =>
    intro n curr final acc fuel hn hfuel hk hex hmiss
    have hn1 : ((k : Int)) + 2 ≤ n := by exact_mod_cast hk
    have hne : ¬ (dateOf curr = dateOf final) := by
      rcases hf with hf | hf <;> (subst hf; omega)
    obtain ⟨fuel', rfl⟩ : ∃ m, fuel = m + 1 := ⟨fuel - 1, by omega⟩
    obtain ⟨m, rfl⟩ : ∃ m, n = m + 1 := ⟨n - 1, by omega⟩
    have hd : dateOf (curr + 24 * f) = dateOf curr + f := dateOf_add_mul curr f
    have hex0 : fs (fileOfDay dir (dateOf (curr + 24 * f))) = true := by
      rw [hd]
      have h0 := hex 0 (by omega)
      push_cast at h0
      simpa using h0
    simp only [discover]
    rw [if_neg hne, if_pos hex0]
    have hn' : dateOf final = dateOf (curr + 24 * f) + f * m := by
      rw [hd]
      rcases hf with hf | hf <;> (subst hf; push_cast at hn ⊢; omega)
    have hex' : ∀ i : Nat, i < k →
        fs (fileOfDay dir (dateOf (curr + 24 * f) + f * ((i : Int) + 1))) = true := by
      intro i hi
      have h1 := hex (i + 1) (by omega)
      have harg : dateOf (curr + 24 * f) + f * ((i : Int) + 1)
          = dateOf curr + f * (((i : Nat) + 1 : Nat) + 1 : Int) := by
        rw [hd]
        push_cast
        ring
      rw [harg]
      exact h1
    have hmiss' : fs (fileOfDay dir (dateOf (curr + 24 * f) + f * ((k : Int) + 1))) = false := by
      have harg : dateOf (curr + 24 * f) + f * ((k : Int) + 1)
          = dateOf curr + f * (((k : Nat) + 1 : Nat) + 1 : Int) := by
        rw [hd]
        push_cast
        ring
      rw [harg]
      exact_mod_cast hmiss
    rw [ih m (curr + 24 * f) final (acc ++ [dateOf (curr + 24 * f)]) fuel' hn'
      (by omega) (by omega) hex' hmiss']
    have harg : dateOf (curr + 24 * f) + f * ((k : Int) + 1)
        = dateOf curr + f * (((k : Nat) + 1 : Nat) + 1 : Int) := by
      rw [hd]
      push_cast
      ring
    rw [harg]

/-- Fuel exhaustion: with fewer iterations than the day gap allowed, the
loop is still running (it has not produced a result). -/
lemma discover_none (fs : String → Bool) (dir : String) (f : Int)
    (hf : f = 1 ∨ f = -1) (fuel : Nat) :
    ∀ (n : Nat) (curr final : Int) (acc : List Int),
      dateOf final = dateOf curr + f * n →
      fuel < n →
      (∀ i : Nat, i < n → fs (fileOfDay dir (dateOf curr + f * ((i : Int) + 1))) = true) →
      discover fs dir (24 * f) final fuel curr acc = none := by
  induction fuel with
  | zero =>
    intro n curr final acc hn hlt _
    have hn1 : (1 : Int) ≤ n := by exact_mod_cast hlt
    have hne : ¬ (dateOf curr = dateOf final) := by
      rcases hf with hf | hf <;> (subst hf; omega)
    simp [discover, hne]
  | succ fuel ih =>
    intro n curr final acc hn hlt hex
    obtain ⟨m, rfl⟩ : ∃ m, n = m + 1 := ⟨n - 1, by omega⟩
    push_cast at hn
    have hne : ¬ (dateOf curr = dateOf final) := by
      rcases hf with hf | hf <;> (subst hf; omega)
    have hd : dateOf (curr + 24 * f) = dateOf curr + f := dateOf_add_mul curr f
    have hex0 : fs (fileOfDay dir (dateOf (curr + 24 * f))) = true := by
      rw [hd]
      have h0 := hex 0 (by omega)
      push_cast at h0
      simpa using h0
    simp only [discover]
    rw [if_neg hne, if_pos hex0]
    apply ih m (curr + 24 * f) final
    · rw [hd]
      rcases hf with hf | hf <;> (subst hf; omega)
    · omega
    · intro i hi
      have h1 := hex (i + 1) (by omega)
      have harg : dateOf (curr + 24 * f) + f * ((i : Int) + 1)
          = dateOf curr + f * (((i : Nat) + 1 : Nat) + 1 : Int) := by
        rw [hd]
        push_cast
        ring
      rw [harg]
      exact h1

/-- C1 counterexample: for the backward configuration `cfgBwdEx` the
discovered list of calendar days is `[2, 1]` — decreasing, not "ordered by
increasing calendar date at discovery time" as the claim states. -/
theorem c1_counterexample :
    nc_pres_days allFiles cfgBwdEx 5 = some (Except.ok [2, 1]) ∧
    ¬ ([2, 1] : List Int).Pairwise (· ≤ ·) := by
  constructor
  · rfl
  · decide

/-- C1 (amended): the discovery cursor advances by `forward_option × 1`
calendar day per iteration, so the discovered day list is
`start_date + forward_option * i` — increasing for forward runs and
decreasing for backward runs. -/
theorem c1_discovery_walk (fs : String → Bool) (cfg : Config) (fuel : Nat)
    (hf : cfg.forward_option = 1 ∨ cfg.forward_option = -1)
    (hL : 0 ≤ cfg.integration_length)
    (hfs : ∀ s, fs s = true)
    (hfuel : dayGap cfg ≤ fuel) :
    ∃ days : List Int,
      nc_pres_days fs cfg fuel = some (Except.ok days) ∧
      days = (List.range (dayGap cfg + 1)).map
        (fun i : Nat => dateOf (strt_t cfg) + cfg.forward_option * (i : Int)) ∧
      (cfg.forward_option = 1 → days.Pairwise (· < ·)) ∧
      (cfg.forward_option = -1 → days.Pairwise (· > ·)) := by
  refine ⟨_, nc_pres_days_ok fs cfg fuel hf hL hfuel (fun i _ => hfs _), rfl, ?_, ?_⟩
  · intro h1
    rw [List.pairwise_map]
    apply (List.pairwise_lt_range (dayGap cfg + 1)).imp
    intro a b hab
    rw [h1]
    omega
  · intro h1
    rw [List.pairwise_map]
    apply (List.pairwise_lt_range (dayGap cfg + 1)).imp
    intro a b hab
    rw [h1]
    omega

/-- Witness for C1 (amended) at the concrete forward configuration. -/
theorem c1_witness :
    nc_pres_days allFiles cfgFwdW 1 = some (Except.ok [0, 1]) ∧
    ([0, 1] : List Int).Pairwise (· < ·) := by
  obtain ⟨days, h1, h2, h3, _⟩ :=
    c1_discovery_walk allFiles cfgFwdW 1 (Or.inl rfl) (by decide)
      (fun _ => rfl) (by decide)
  have hdays : days = [0, 1] := by
    rw [h2]
    rfl
  rw [hdays] at h1 h3
  exact ⟨h1, h3 rfl⟩

/-- C2 counterexample: with start hour 0 and a 25-hour forward run the code
discovers 2 files (days 0 and 1), but the claim's formula
`ceil(25/24) + 1` gives 3. -/
theorem c2_counterexample :
    nc_pres_days allFiles cfgFwd25 5 = some (Except.ok [0, 1]) ∧
    ([0, 1] : List Int).length = 2 ∧
    spec_file_count cfgFwd25.integration_length = 3 := by
  refine ⟨rfl, rfl, ?_⟩
  show (⌈(25 : ℚ) / 24⌉ + 1 : Int) = 3
  have h : (⌈(25 : ℚ) / 24⌉ : Int) = 2 := by
    rw [Int.ceil_eq_iff]
    norm_num
  rw [h]
  rfl

/-- C2 (amended): for every valid configuration the discovered file list
has exactly `|date(final_time) - date(start_time)| + 1` entries, spanning
the start date to the final date inclusive, regardless of the direction
sign; the count depends on the start hour and is not `ceil(L/24) + 1` in
general. -/
theorem c2_file_count (fs : String → Bool) (cfg : Config) (fuel : Nat)
    (hf : cfg.forward_option = 1 ∨ cfg.forward_option = -1)
    (hL : 0 ≤ cfg.integration_length)
    (hfs : ∀ s, fs s = true)
    (hfuel : dayGap cfg ≤ fuel) :
    ∃ days : List Int,
      nc_pres_days fs cfg fuel = some (Except.ok days) ∧
      days.length = dayGap cfg + 1 ∧
      dateOf (strt_t cfg) ∈ days ∧
      dateOf (final_t cfg) ∈ days ∧
      ∀ d ∈ days,
        min (dateOf (strt_t cfg)) (dateOf (final_t cfg)) ≤ d ∧
        d ≤ max (dateOf (strt_t cfg)) (dateOf (final_t cfg)) := by
  refine ⟨_, nc_pres_days_ok fs cfg fuel hf hL hfuel (fun i _ => hfs _), ?_, ?_, ?_, ?_⟩
  · rw [List.length_map, List.length_range]
  · rw [List.mem_map]
    exact ⟨0, by simp [List.mem_range]⟩
  · rw [List.mem_map]
    refine ⟨dayGap cfg, by simp [List.mem_range], ?_⟩
    rw [dateOf_final cfg hf hL]
  · intro d hd
    rw [List.mem_map] at hd
    obtain ⟨i, hi, rfl⟩ := hd
    rw [List.mem_range] at hi
    have hg := dateOf_final cfg hf hL
    have hic : (i : Int) ≤ (dayGap cfg : Int) := by exact_mod_cast Nat.lt_succ_iff.mp hi
    rcases hf with hf | hf <;>
      (rw [hf] at hg ⊢; constructor <;> simp [min_def, max_def] <;> omega)

/-- Witness for C2 (amended) at the concrete forward configuration. -/
theorem c2_witness :
    nc_pres_days allFiles cfgFwdW 1 = some (Except.ok [0, 1]) ∧
    ([0, 1] : List Int).length = dayGap cfgFwdW + 1 := by
  obtain ⟨days, h1, h2, _⟩ :=
    c2_file_count allFiles cfgFwdW 1 (Or.inl rfl) (by decide)
      (fun _ => rfl) (by decide)
  have hdays : days = [0, 1] := by
    have e : nc_pres_days allFiles cfgFwdW 1 = some (Except.ok [0, 1]) := rfl
    have := h1.symm.trans e
    simpa using this
  rw [hdays] at h1 h2
  exact ⟨h1, h2⟩

/-- C7 (confirmed): for every required daily file on the discovery walk
(the start day's file at `k = 0`, and every later discovered file), if the
files before it exist but it does not, construction aborts with the fatal
`cannot locate` error whose message names exactly that file's path; no file
list is produced (no retry, partial result, or skip-and-continue). -/
theorem c7_missing_file_fatal (fs : String → Bool) (cfg : Config) (fuel : Nat) (k : Nat)
    (hf : cfg.forward_option = 1 ∨ cfg.forward_option = -1)
    (hL : 0 ≤ cfg.integration_length)
    (hfuel : dayGap cfg ≤ fuel)
    (hk : k ≤ dayGap cfg)
    (hex : ∀ i : Nat, i < k →
      fs (fileOfDay cfg.input_era5_case
        (dateOf (strt_t cfg) + cfg.forward_option * (i : Int))) = true)
    (hmiss : fs (fileOfDay cfg.input_era5_case
      (dateOf (strt_t cfg) + cfg.forward_option * (k : Int))) = false) :
    nc_pres_days fs cfg fuel = some (Except.error
      (errMissing (fileOfDay cfg.input_era5_case
        (dateOf (strt_t cfg) + cfg.forward_option * (k : Int))))) := by
  match k with
  | 0 =>
    have hm0 : fs (fileOfDay cfg.input_era5_case (dateOf (strt_t cfg))) = false := by
      simpa using hmiss
    simp only [nc_pres_days]
    rw [if_neg (by simp [hm0])]
    congr 2
    simp
  | j + 1 =>
    have h0 : fs (fileOfDay cfg.input_era5_case (dateOf (strt_t cfg))) = true := by
      have h := hex 0 (by omega)
      simpa using h
    simp only [nc_pres_days]
    rw [if_pos h0]
    have hex' : ∀ i : Nat, i < j →
        fs (fileOfDay cfg.input_era5_case
          (dateOf (strt_t cfg) + cfg.forward_option * ((i : Int) + 1))) = true := by
      intro i hi
      have h := hex (i + 1) (by omega)
      push_cast at h
      exact h
    have hmiss' : fs (fileOfDay cfg.input_era5_case
        (dateOf (strt_t cfg) + cfg.forward_option * ((j : Int) + 1))) = false := by
      push_cast at hmiss
      exact hmiss
    rw [discover_err fs cfg.input_era5_case cfg.forward_option hf j (dayGap cfg)
      (strt_t cfg) (final_t cfg) [dateOf (strt_t cfg)] fuel
      (dateOf_final cfg hf hL) hfuel (by omega) hex' hmiss']
    congr 3

/-- Witness for C7: the day-1 file is missing on a filesystem that only has
the day-0 file, and construction aborts naming `era5/1-pl.grib`. -/
theorem c7_witness :
    nc_pres_days (fun s => s = fileOfDay "era5" 0) cfgFwdW 1
      = some (Except.error (errMissing (fileOfDay "era5" 1))) := by
  have h := c7_missing_file_fatal (fun s => decide (s = fileOfDay "era5" 0)) cfgFwdW 1 1
    (Or.inl rfl) (by decide) (by decide) (by decide)
    (by decide) (by decide)
  simpa using h

lemma dateOf_48mul (k : Int) : dateOf (48 * k) = 2 * k := by
  have h := dateOf_add_mul 0 (2 * k)
  have e : (0 : Int) + 24 * (2 * k) = 48 * k := by ring
  have h0 : dateOf 0 = 0 := rfl
  rw [e, h0] at h
  simpa using h

/-- With direction 2 from day 0 toward final day 1, the cursor only ever
visits even days, so the loop never terminates whatever the fuel. -/
lemma discover_dir2_none (fuel : Nat) :
    ∀ (k : Int) (acc : List Int),
      discover allFiles "era5" 48 24 fuel (48 * k) acc = none := by
  induction fuel with
  | zero =>
    intro k acc
    have hne : ¬ (dateOf (48 * k) = dateOf 24) := by
      rw [dateOf_48mul]
      show ¬ (2 * k = 1)
      omega
    simp [discover, hne]
  | succ fuel ih =>
    intro k acc
    have hne : ¬ (dateOf (48 * k) = dateOf 24) := by
      rw [dateOf_48mul]
      show ¬ (2 * k = 1)
      omega
    simp only [discover]
    have htrue : allFiles (fileOfDay "era5" (dateOf (48 * k + 48))) = true := rfl
    rw [if_neg hne, if_pos htrue]
    have e : 48 * k + 48 = 48 * (k + 1) := by ring
    rw [e]
    exact ih (k + 1) _

/-- C10 (confirmed): for direction `±1` and nonnegative length (with all
files present) the discovery loop terminates, and does so after exactly
`dayGap` iterations — the number of calendar days separating the start date
from the final date: `dayGap` units of fuel produce a result and any
smaller fuel leaves the loop still running.  For the out-of-range direction
value `2` the loop structure does not guarantee termination: on `cfgDir2`
it runs forever (no fuel suffices). -/
theorem c10_loop_termination :
    (∀ (fs : String → Bool) (cfg : Config),
      (cfg.forward_option = 1 ∨ cfg.forward_option = -1) →
      0 ≤ cfg.integration_length →
      (∀ s, fs s = true) →
      (nc_pres_days fs cfg (dayGap cfg)).isSome = true ∧
      (∀ fuel : Nat, fuel < dayGap cfg → nc_pres_days fs cfg fuel = none)) ∧
    (∀ fuel : Nat, nc_pres_days allFiles cfgDir2 fuel = none) := by
  constructor
  · intro fs cfg hf hL hfs
    constructor
    · rw [nc_pres_days_ok fs cfg (dayGap cfg) hf hL le_rfl (fun i _ => hfs _)]
      rfl
    · intro fuel hfuel
      simp only [nc_pres_days]
      rw [if_pos (hfs _)]
      refine discover_none fs cfg.input_era5_case cfg.forward_option hf fuel
        (dayGap cfg) (strt_t cfg) (final_t cfg) _
        (dateOf_final cfg hf hL) hfuel ?_
      intro i _
      exact hfs _
  · intro fuel
    simp only [nc_pres_days]
    have htrue : allFiles (fileOfDay cfgDir2.input_era5_case (dateOf (strt_t cfgDir2))) = true := rfl
    rw [if_pos htrue]
    have e : strt_t cfgDir2 = 48 * 0 := by norm_num [strt_t, cfgDir2]
    rw [e]
    have h := discover_dir2_none fuel 0 [dateOf (48 * 0)]
    convert h using 2

/-- Witness for C10: on the concrete forward configuration the loop
finishes with fuel `dayGap = 1` and is still running with fuel `0`. -/
theorem c10_witness :
    (nc_pres_days allFiles cfgFwdW (dayGap cfgFwdW)).isSome = true ∧
    nc_pres_days allFiles cfgFwdW 0 = none := by
  have h := c10_loop_termination.1 allFiles cfgFwdW (Or.inl rfl) (by decide)
    (fun _ => rfl)
  exact ⟨h.1, h.2 0 (by decide)⟩

lemma pairwise_map_range_add (a : Int) (m : Nat) :
    ((List.range m).map (fun i : Nat => a + (i : Int))).Pairwise (· < ·) := by
  rw [List.pairwise_map]
  exact (List.pairwise_lt_range m).imp (fun h => by omega)

/-- Concatenating per-day time coordinates over strictly increasing days
gives a strictly increasing combined time coordinate, provided each file's
times are strictly increasing and lie within its own calendar day. -/
lemma comb_times_pairwise (load : Int → List Int) (order : List Int)
    (h1 : ∀ d, (load d).Pairwise (· < ·))
    (h2 : ∀ d t, t ∈ load d → 24 * d ≤ t ∧ t < 24 * d + 24)
    (hord : order.Pairwise (· < ·)) :
    (comb_times load order).Pairwise (· < ·) := by
  unfold comb_times
  rw [List.pairwise_flatten]
  constructor
  · intro l hl
    rw [List.mem_map] at hl
    obtain ⟨d, _, rfl⟩ := hl
    exact h1 d
  · rw [List.pairwise_map]
    refine hord.imp ?_
    intro a b hab x hx y hy
    have hxa := h2 a x hx
    have hyb := h2 b y hy
    omega

lemma map_range_reverse (a : Int) (n : Nat) :
    (List.range (n + 1)).map (fun i : Nat => a + (n : Int) - i)
      = ((List.range (n + 1)).map (fun i : Nat => a + (i : Int))).reverse := by
  induction n with
  | zero => norm_num [List.range_succ]
  | succ n ih =>
    have lhs : (List.range (n + 1 + 1)).map (fun i : Nat => a + ((n : Int) + 1) - i)
        = (a + (n : Int) + 1) :: (List.range (n + 1)).map (fun i : Nat => a + (n : Int) - i) := by
      rw [List.range_succ_eq_map, List.map_cons, List.map_map]
      congr 1
      · push_cast
        ring
      · apply List.map_congr_left
        intro i _
        simp only [Function.comp_apply]
        push_cast
        ring
    have rhs : ((List.range (n + 1 + 1)).map (fun i : Nat => a + (i : Int))).reverse
        = (a + (n : Int) + 1) :: ((List.range (n + 1)).map (fun i : Nat => a + (i : Int))).reverse := by
      rw [List.range_succ, List.map_append, List.reverse_append]
      simp
      ring
    push_cast
    rw [lhs, rhs, ih]

lemma dayGap_bwd_eq (s L : Int) (dir : String) (ts : Int) :
    dayGap (cfgBwdOf s L dir ts) = dayGap (cfgFwdOf s L dir ts) := by
  unfold dayGap cfgBwdOf cfgFwdOf final_t strt_t
  have e1 : s + L + (-1) * L = s := by ring
  have e2 : s + 1 * L = s + L := by ring
  simp only [e1, e2]
  omega

lemma dayGap_fwd_cast (s L : Int) (dir : String) (ts : Int) (hL : 0 ≤ L) :
    ((dayGap (cfgFwdOf s L dir ts) : Int)) = dateOf (s + L) - dateOf s := by
  unfold dayGap cfgFwdOf final_t strt_t
  have e2 : s + 1 * L = s + L := by ring
  simp only [e2]
  have hm := dateOf_mono (show s ≤ s + L by omega)
  rw [Int.natAbs_of_nonneg (by omega)]

/-- C3 (amended): over the same calendar span the forward and backward runs
discover the same file paths as a set, but in mutually reversed discovery
order; the backward run reverses its loaded sequence before concatenation
(`ds_grib[::-1]`), so the concatenation order is identical between the two
runs — not reversed — and in both runs the combined time coordinate is
strictly increasing. -/
theorem c3_span_symmetry (fs : String → Bool) (s L : Int) (dir : String) (ts : Int)
    (load : Int → List Int) (fuelF fuelB : Nat)
    (hL : 0 ≤ L)
    (hfs : ∀ p, fs p = true)
    (h1 : ∀ d, (load d).Pairwise (· < ·))
    (h2 : ∀ d t, t ∈ load d → 24 * d ≤ t ∧ t < 24 * d + 24)
    (hfF : dayGap (cfgFwdOf s L dir ts) ≤ fuelF)
    (hfB : dayGap (cfgBwdOf s L dir ts) ≤ fuelB) :
    ∃ daysF daysB : List Int,
      nc_pres_days fs (cfgFwdOf s L dir ts) fuelF = some (Except.ok daysF) ∧
      nc_pres_days fs (cfgBwdOf s L dir ts) fuelB = some (Except.ok daysB) ∧
      daysB = daysF.reverse ∧
      (∀ p : String, p ∈ daysF.map (fileOfDay dir) ↔ p ∈ daysB.map (fileOfDay dir)) ∧
      ds_grib_order (cfgFwdOf s L dir ts) daysF
        = ds_grib_order (cfgBwdOf s L dir ts) daysB ∧
      (comb_times load (ds_grib_order (cfgFwdOf s L dir ts) daysF)).Pairwise (· < ·) ∧
      (comb_times load (ds_grib_order (cfgBwdOf s L dir ts) daysB)).Pairwise (· < ·) := by
  have hokF := nc_pres_days_ok fs (cfgFwdOf s L dir ts) fuelF (Or.inl rfl) hL hfF
    (fun i _ => hfs _)
  have hokB := nc_pres_days_ok fs (cfgBwdOf s L dir ts) fuelB (Or.inr rfl) hL hfB
    (fun i _ => hfs _)
  set n := dayGap (cfgFwdOf s L dir ts) with hn
  have hgB : dayGap (cfgBwdOf s L dir ts) = n := dayGap_bwd_eq s L dir ts
  have hcast : ((n : Int)) = dateOf (s + L) - dateOf s := dayGap_fwd_cast s L dir ts hL
  have hsF : strt_t (cfgFwdOf s L dir ts) = s := rfl
  have hsB : strt_t (cfgBwdOf s L dir ts) = s + L := rfl
  have hfoF : (cfgFwdOf s L dir ts).forward_option = 1 := rfl
  have hfoB : (cfgBwdOf s L dir ts).forward_option = -1 := rfl
  rw [hsF, hfoF] at hokF
  rw [hsB, hfoB, hgB] at hokB
  have eF : (List.range (n + 1)).map (fun i : Nat => dateOf s + 1 * (i : Int))
      = (List.range (n + 1)).map (fun i : Nat => dateOf s + (i : Int)) := by
    apply List.map_congr_left
    intro i _
    ring
  have eB : (List.range (n + 1)).map (fun i : Nat => dateOf (s + L) + (-1) * (i : Int))
      = (List.range (n + 1)).map (fun i : Nat => dateOf s + (n : Int) - (i : Int)) := by
    apply List.map_congr_left
    intro i _
    rw [hcast]
    ring
  rw [eF] at hokF
  rw [eB] at hokB
  have hrev : (List.range (n + 1)).map (fun i : Nat => dateOf s + (n : Int) - (i : Int))
      = ((List.range (n + 1)).map (fun i : Nat => dateOf s + (i : Int))).reverse :=
    map_range_reverse (dateOf s) n
  have hordF : ds_grib_order (cfgFwdOf s L dir ts)
      ((List.range (n + 1)).map (fun i : Nat => dateOf s + (i : Int)))
      = (List.range (n + 1)).map (fun i : Nat => dateOf s + (i : Int)) := by
    unfold ds_grib_order
    rw [hfoF]
    norm_num
  have hordB : ds_grib_order (cfgBwdOf s L dir ts)
      (((List.range (n + 1)).map (fun i : Nat => dateOf s + (i : Int))).reverse)
      = (List.range (n + 1)).map (fun i : Nat => dateOf s + (i : Int)) := by
    unfold ds_grib_order
    rw [hfoB]
    norm_num
  have hpair : ((List.range (n + 1)).map (fun i : Nat => dateOf s + (i : Int))).Pairwise (· < ·) :=
    pairwise_map_range_add (dateOf s) (n + 1)
  refine ⟨(List.range (n + 1)).map (fun i : Nat => dateOf s + (i : Int)),
    ((List.range (n + 1)).map (fun i : Nat => dateOf s + (i : Int))).reverse,
    hokF, ?_, rfl, ?_, ?_, ?_, ?_⟩
  · rw [hokB, hrev]
  · intro p
    simp [List.mem_map, List.mem_reverse]
  · rw [hordF, hordB]
  · rw [hordF]
    exact comb_times_pairwise load _ h1 h2 hpair
  · rw [hordB]
    exact comb_times_pairwise load _ h1 h2 hpair

/-- C3 counterexample: over the two-day span `[day 0, day 1]` the forward
run discovers `[0, 1]` and the backward run `[1, 0]`, but after the
backward run's reversal the concatenation orders are both `[0, 1]` —
identical, not reversed between the two runs. -/
theorem c3_counterexample :
    nc_pres_days allFiles (cfgFwdOf 0 24 "era5" 30) 5 = some (Except.ok [0, 1]) ∧
    nc_pres_days allFiles (cfgBwdOf 0 24 "era5" 30) 5 = some (Except.ok [1, 0]) ∧
    ds_grib_order (cfgFwdOf 0 24 "era5" 30) [0, 1] = [0, 1] ∧
    ds_grib_order (cfgBwdOf 0 24 "era5" 30) [1, 0] = [0, 1] ∧
    ds_grib_order (cfgBwdOf 0 24 "era5" 30) [1, 0]
      ≠ (ds_grib_order (cfgFwdOf 0 24 "era5" 30) [0, 1]).reverse := by
  exact ⟨rfl, rfl, rfl, rfl, by decide⟩

/-- Witness for C3 (amended) on the concrete span `[day 0, day 1]`. -/
theorem c3_witness :
    nc_pres_days allFiles (cfgFwdOf 0 24 "era5" 30) 1 = some (Except.ok [0, 1]) ∧
    nc_pres_days allFiles (cfgBwdOf 0 24 "era5" 30) 1 = some (Except.ok [1, 0]) ∧
    ([1, 0] : List Int) = ([0, 1] : List Int).reverse ∧
    (comb_times sixHourly (ds_grib_order (cfgFwdOf 0 24 "era5" 30) [0, 1])).Pairwise (· < ·) := by
  have h1 : ∀ d : Int, (sixHourly d).Pairwise (· < ·) := by
    intro d
    unfold sixHourly
    norm_num [List.pairwise_cons]
  have h2 : ∀ (d t : Int), t ∈ sixHourly d → 24 * d ≤ t ∧ t < 24 * d + 24 := by
    intro d t ht
    unfold sixHourly at ht
    simp only [List.mem_cons, List.not_mem_nil, or_false] at ht
    rcases ht with h | h | h | h <;> omega
  obtain ⟨dF, dB, hF, hB, hrev, _, _, hpF, _⟩ :=
    c3_span_symmetry allFiles 0 24 "era5" 30 sixHourly 1 1 (by norm_num)
      (fun _ => rfl) h1 h2 (by decide) (by decide)
  have edF : dF = [0, 1] := by
    have e : nc_pres_days allFiles (cfgFwdOf 0 24 "era5" 30) 1
        = some (Except.ok [0, 1]) := rfl
    have := hF.symm.trans e
    simpa using this
  have edB : dB = [1, 0] := by
    have e : nc_pres_days allFiles (cfgBwdOf 0 24 "era5" 30) 1
        = some (Except.ok [1, 0]) := rfl
    have := hB.symm.trans e
    simpa using this
  rw [edF] at hF hpF
  rw [edB] at hB
  rw [edF, edB] at hrev
  exact ⟨hF, hB, hrev, hpF⟩

/-- C5 (confirmed): the slice bounds are the chronological
`[min(start, final), max(start, final)]` — `[final_t, strt_t]` for
backward runs, `[strt_t, final_t]` for forward runs — and slicing is
inclusive of both window endpoints: whenever the endpoints coincide with
available time coordinates, both appear in the sliced result. -/
theorem c5_slice_inclusive (cfg : Config) (times : List Int)
    (hf : cfg.forward_option = 1 ∨ cfg.forward_option = -1)
    (hL : 0 ≤ cfg.integration_length)
    (hs : strt_t cfg ∈ times) (hfin : final_t cfg ∈ times) :
    ∃ lo hi : Int,
      slice_bounds cfg = some (lo, hi) ∧
      lo = min (strt_t cfg) (final_t cfg) ∧
      hi = max (strt_t cfg) (final_t cfg) ∧
      strt_t cfg ∈ sliceTimes lo hi times ∧
      final_t cfg ∈ sliceTimes lo hi times := by
  rcases hf with hf | hf
  · have hle : strt_t cfg ≤ final_t cfg := by
      unfold final_t
      rw [hf]
      omega
    refine ⟨strt_t cfg, final_t cfg, ?_, (min_eq_left hle).symm,
      (max_eq_right hle).symm, ?_, ?_⟩
    · unfold slice_bounds
      rw [hf]
      norm_num
    · simp only [sliceTimes, List.mem_filter, Bool.and_eq_true, decide_eq_true_eq]
      exact ⟨hs, le_refl _, hle⟩
    · simp only [sliceTimes, List.mem_filter, Bool.and_eq_true, decide_eq_true_eq]
      exact ⟨hfin, hle, le_refl _⟩
  · have hle : final_t cfg ≤ strt_t cfg := by
      unfold final_t
      rw [hf]
      omega
    refine ⟨final_t cfg, strt_t cfg, ?_, (min_eq_right hle).symm,
      (max_eq_left hle).symm, ?_, ?_⟩
    · unfold slice_bounds
      rw [hf]
      norm_num
    · simp only [sliceTimes, List.mem_filter, Bool.and_eq_true, decide_eq_true_eq]
      exact ⟨hs, hle, le_refl _⟩
    · simp only [sliceTimes, List.mem_filter, Bool.and_eq_true, decide_eq_true_eq]
      exact ⟨hfin, le_refl _, hle⟩

/-- Witness for C5 at the concrete forward configuration (window
`[6, 36]`) over a 6-hourly time axis containing both endpoints. -/
theorem c5_witness :
    slice_bounds cfgFwdW = some (6, 36) ∧
    strt_t cfgFwdW ∈ sliceTimes 6 36 [6, 12, 18, 24, 30, 36] ∧
    final_t cfgFwdW ∈ sliceTimes 6 36 [6, 12, 18, 24, 30, 36] := by
  obtain ⟨lo, hi, h1, _, _, h4, h5⟩ :=
    c5_slice_inclusive cfgFwdW [6, 12, 18, 24, 30, 36] (Or.inl rfl) (by decide)
      (by decide) (by decide)
  have e : slice_bounds cfgFwdW = some (6, 36) := rfl
  have hlh : lo = 6 ∧ hi = 36 := by
    have := h1.symm.trans e
    simpa using this
  obtain ⟨rfl, rfl⟩ := hlh
  exact ⟨h1, h4, h5⟩

/-- C6 (confirmed): with valid slice bounds, construction fails (with the
fatal NaN message) if and only if some frame of the sliced extent of `U`,
`V` or `W` contains a missing value; otherwise it succeeds, returning
exactly the three sliced arrays. -/
theorem c6_nan_fatal (cfg : Config) (w : WindInput) (lo hi : Int)
    (hb : slice_bounds cfg = some (lo, hi)) :
    (slice_and_check cfg w = Except.error errNan ↔
      (∃ p ∈ sliceVar lo hi w.U, ∃ x ∈ p.2, x.isNan = true) ∨
      (∃ p ∈ sliceVar lo hi w.V, ∃ x ∈ p.2, x.isNan = true) ∨
      (∃ p ∈ sliceVar lo hi w.W, ∃ x ∈ p.2, x.isNan = true)) ∧
    (slice_and_check cfg w = Except.error errNan ∨
      slice_and_check cfg w
        = Except.ok ⟨sliceVar lo hi w.U, sliceVar lo hi w.V, sliceVar lo hi w.W⟩) := by
  have hiff : (hasNan (sliceVar lo hi w.U) || hasNan (sliceVar lo hi w.V)
        || hasNan (sliceVar lo hi w.W)) = true ↔
      (∃ p ∈ sliceVar lo hi w.U, ∃ x ∈ p.2, x.isNan = true) ∨
      (∃ p ∈ sliceVar lo hi w.V, ∃ x ∈ p.2, x.isNan = true) ∨
      (∃ p ∈ sliceVar lo hi w.W, ∃ x ∈ p.2, x.isNan = true) := by
    simp [hasNan, List.any_eq_true, or_assoc]
  unfold slice_and_check
  rw [hb]
  dsimp only
  split_ifs with hc
  · exact ⟨⟨fun _ => hiff.mp hc, fun _ => rfl⟩, Or.inl rfl⟩
  · refine ⟨⟨fun h => absurd h (by simp), fun h => absurd (hiff.mpr h) hc⟩, Or.inr rfl⟩

/-- Witness for C6: one NaN anywhere in the sliced extent aborts
construction; the NaN-free input over the identical extent succeeds. -/
theorem c6_witness :
    slice_and_check cfgFwdW exWbad = Except.error errNan ∧
    slice_and_check cfgFwdW exWgood
      = Except.ok ⟨[(6, [GVal.val 1])], [(6, [GVal.val 2])], [(6, [GVal.val 3])]⟩ := by
  have hbad := c6_nan_fatal cfgFwdW exWbad 6 36 rfl
  have hgood := c6_nan_fatal cfgFwdW exWgood 6 36 rfl
  constructor
  · exact hbad.1.mpr (by decide)
  · have hok := hgood.2.resolve_left (fun he => absurd (hgood.1.mp he) (by decide))
    exact hok

/-- C8 (confirmed): `drv_fld_dt` is the seconds delta between the first two
time coordinates of the combined series, `step_per_inpf` is its exact
quotient by `time_step × 60` with no integrality check — it can be a
non-integer and no error is raised — and for a 6-hour (21600 s) cadence
with a 30-minute step it equals 12. -/
theorem c8_sampling_metadata :
    (∀ (cfg : Config) (t0 t1 : Int) (rest : List Int),
      drv_fld_dt (t0 :: t1 :: rest) = some ((t1 - t0) * 3600) ∧
      step_per_inpf cfg (t0 :: t1 :: rest)
        = some ((((t1 - t0) * 3600 : Int) : ℚ) / ((cfg.time_step : ℚ) * 60))) ∧
    (∀ (cfg : Config) (t0 : Int) (rest : List Int),
      cfg.time_step = 30 →
      step_per_inpf cfg (t0 :: (t0 + 6) :: rest) = some 12) ∧
    (∃ (cfg : Config) (times : List Int) (q : ℚ),
      step_per_inpf cfg times = some q ∧ ∀ z : Int, (z : ℚ) ≠ q) := by
  refine ⟨fun cfg t0 t1 rest => ⟨rfl, rfl⟩, ?_, ?_⟩
  · intro cfg t0 rest hts
    simp only [step_per_inpf, drv_fld_dt, Option.map, hts]
    push_cast
    ring_nf
    norm_num
  · refine ⟨cfgStep50, [0, 6], 36 / 5, ?_, ?_⟩
    · simp only [step_per_inpf, drv_fld_dt, Option.map, cfgStep50]
      norm_num
    · intro z hz
      have h5 : (5 : ℚ) * (z : ℚ) = 36 := by
        rw [hz]
        norm_num
      have h5z : (5 * z : Int) = 36 := by exact_mod_cast h5
      omega

/-- Witness for C8: 6-hour cadence, 30-minute step, `steps_per_frame = 12`
at a concrete configuration. -/
theorem c8_witness :
    step_per_inpf cfgStep30 [0, 6, 12] = some 12 := by
  exact c8_sampling_metadata.2.1 cfgStep30 0 [12] rfl

lemma adjust_lon_no_neg {α : Type} (l : List (Int × α))
    (h : l.any (fun p => decide (p.1 < 0)) = false) : adjust_lon l = l := by
  unfold adjust_lon
  rw [if_neg (by rw [h]; exact Bool.false_ne_true)]

/-- C4 (confirmed): longitude normalization leaves an all-non-negative
coordinate untouched; under the signed convention (all inputs in
`[-360, 360)`) it produces only coordinates in `[0, 360)`; when triggered
it sorts the axis ascending by the new coordinate; the multiset of
underlying data values is preserved (no loss or duplication); and the
operation is idempotent. -/
theorem c4_lon_normalization {α : Type} (ds : List (Int × α)) :
    (ds.any (fun p => decide (p.1 < 0)) = false → adjust_lon ds = ds) ∧
    ((∀ p ∈ ds, -360 ≤ p.1 ∧ p.1 < 360) →
      ∀ q ∈ adjust_lon ds, 0 ≤ q.1 ∧ q.1 < 360) ∧
    (ds.any (fun p => decide (p.1 < 0)) = true →
      (adjust_lon ds).Sorted lonKeyLe) ∧
    ((adjust_lon ds).map Prod.snd).Perm (ds.map Prod.snd) ∧
    ((∀ p ∈ ds, -360 ≤ p.1) → adjust_lon (adjust_lon ds) = adjust_lon ds) := by
  have hsnd : (ds.map (fun p : Int × α => if p.1 < 0 then (p.1 + 360, p.2) else p)).map
      Prod.snd = ds.map Prod.snd := by
    rw [List.map_map]
    apply List.map_congr_left
    intro p _
    simp only [Function.comp_apply]
    split <;> rfl
  have hmem : ∀ q : Int × α, q ∈ adjust_lon ds →
      (q ∈ ds ∧ ds.any (fun p => decide (p.1 < 0)) = false) ∨
      (∃ p ∈ ds, q = (if p.1 < 0 then (p.1 + 360, p.2) else p)) := by
    intro q hq
    unfold adjust_lon at hq
    by_cases hneg : ds.any (fun p => decide (p.1 < 0)) = true
    · rw [if_pos hneg] at hq
      rw [List.mem_insertionSort] at hq
      rw [List.mem_map] at hq
      obtain ⟨p, hp, rfl⟩ := hq
      exact Or.inr ⟨p, hp, rfl⟩
    · rw [if_neg hneg] at hq
      exact Or.inl ⟨hq, by revert hneg; cases ds.any (fun p => decide (p.1 < 0)) <;> simp⟩
  refine ⟨?_, ?_, ?_, ?_, ?_⟩
  · intro h
    exact adjust_lon_no_neg ds h
  · intro hrange q hq
    rcases hmem q hq with ⟨hqds, hnone⟩ | ⟨p, hp, rfl⟩
    · have := hrange q hqds
      have hq0 : ¬ (q.1 < 0) := by
        rw [List.any_eq_false] at hnone
        have := hnone q hqds
        simpa using this
      omega
    · have := hrange p hp
      split
      · dsimp only
        omega
      · omega
  · intro hneg
    unfold adjust_lon
    rw [if_pos hneg]
    exact List.sorted_insertionSort lonKeyLe _
  · unfold adjust_lon
    split
    · exact (List.Perm.map Prod.snd (List.perm_insertionSort lonKeyLe _)).trans
        (by rw [hsnd])
    · exact List.Perm.refl _
  · intro hlow
    by_cases hneg : ds.any (fun p => decide (p.1 < 0)) = true
    · have hnn : ∀ q ∈ adjust_lon ds, ¬ (q.1 < 0) := by
        intro q hq
        rcases hmem q hq with ⟨hqds, hnone⟩ | ⟨p, hp, rfl⟩
        · rw [hnone] at hneg
          exact absurd hneg Bool.false_ne_true
        · have := hlow p hp
          split
          · dsimp only
            omega
          · omega
      have hany : (adjust_lon ds).any (fun p => decide (p.1 < 0)) = false := by
        rw [List.any_eq_false]
        intro q hq
        simpa using hnn q hq
      exact adjust_lon_no_neg (adjust_lon ds) hany
    · have hds : adjust_lon ds = ds := adjust_lon_no_neg ds (Bool.eq_false_iff.mpr hneg)
      rw [hds]
      exact hds

/-- Witness for C4 at the concrete mixed-sign axis `[-170, 160]`. -/
theorem c4_witness :
    adjust_lon dsEx = [(160, 20), (190, 10)] ∧
    (adjust_lon dsEx).Sorted lonKeyLe ∧
    ((adjust_lon dsEx).map Prod.snd).Perm (dsEx.map Prod.snd) ∧
    adjust_lon (adjust_lon dsEx) = adjust_lon dsEx := by
  have h := c4_lon_normalization dsEx
  exact ⟨by decide, h.2.2.1 (by decide), h.2.2.2.1, h.2.2.2.2 (by decide)⟩

/-- C9 (code bug): with the boundary-check flag set, construction does not
resolve and open the companion surface file and complete successfully —
it aborts with a `NameError` on the unbound `fn_timestamp`. -/
theorem c9_boundary_check_bug (cfg : Config) (h : cfg.boundary_check = true) :
    boundary_step cfg
      = Except.error "NameError: name fn_timestamp is not defined" := by
  unfold boundary_step
  rw [h]
  rfl

/-- Witness for C9 at a concrete boundary-check configuration. -/
theorem c9_witness :
    boundary_step cfgBC
      = Except.error "NameError: name fn_timestamp is not defined" :=
  c9_boundary_check_bug cfgBC rfl
